import Mathlib

/- Verification of the pybma binding layer: the trace-flattening utilities,
   the stability-result unpacking, the model/knockout operations and the
   simulation wrapper.  Parts of the analysis engine that live in the
   external BioCheckAnalyzerMulti.dll (QN_of_Model, simulate_many, the
   stabilization prover) are modelled from the specification; every
   definition says where it comes from. -/

namespace PyBMA

/-! Data model of a BMA model dictionary (core.py). -/

/-- One entry of data.Model.Variables as read by core.model_to_qn and
core.BMAModel: Id, Name, declared range and the update formula text. -/
structure ModelVariable where
  Id : Int
  Name : String
  RangeFrom : Int
  RangeTo : Int
  Formula : String
deriving DecidableEq

/-- One entry of data.Model.Relationships as read by core.model_to_qn. -/
structure ModelRelationship where
  Id : Int
  FromVariable : Int
  ToVariable : Int
deriving DecidableEq

/-- The model dictionary under the key Model: name, variables, relationships. -/
structure ModelData where
  Name : String
  Variables : List ModelVariable
  Relationships : List ModelRelationship
deriving DecidableEq

/-- Node of the engine qualitative network.  Modelled from the spec: the QN
type is produced inside the external BioCheckAnalyzerMulti.dll, which is not
under src/; per spec section 3 a network variable carries its unique integer
id, its declared range and its update formula, and simulation.py reads the
fields qn.Length and qn[i].var. -/
structure QNNode where
  var : Int
  rangeFrom : Int
  rangeTo : Int
  formula : String
deriving DecidableEq

/-- Engine qualitative network: an ordered collection of nodes (spec section 3). -/
abbrev QN := List QNNode

/-- Modelled from the spec: Marshal.QN_of_Model lives in the external DLL and
is not under src/; per spec section 3 it builds one network node per model
variable, keeping the id, the declared range and the update formula. -/
def QN_of_Model (m : ModelData) : QN :=
  m.Variables.map (fun v =>
    { var := v.Id, rangeFrom := v.RangeFrom, rangeTo := v.RangeTo, formula := v.Formula })

/-- Embeds core.model_to_qn: copies Name, the variable fields and the
relationship fields out of the model dictionary into the engine model object
and invokes QN_of_Model on it. -/
def model_to_qn (model_data : ModelData) : QN :=
  QN_of_Model model_data

/-- Embeds core.BMAModel: the model dictionary self.data plus the cached
engine network self._qn (None until first use of the qn property). -/
structure BMAModel where
  data : ModelData
  qnCache : Option QN
deriving DecidableEq

/-- Embeds the BMAModel.qn property: returns the cached QN when present,
otherwise computes it from the current model data and stores it; the second
component is the state of the object after the property access. -/
def BMAModel.qn (m : BMAModel) : QN × BMAModel :=
  match m.qnCache with
  | some q => (q, m)
  | none => (model_to_qn m.data, { m with qnCache := some (model_to_qn m.data) })

/-- Embeds the scanning loop of BMAModel.knockout_variable: enumerate the
variables and keep the index of the last one whose Id equals variable_index;
i is the running enumeration counter and acc the running true_index. -/
def findTrueIndexAux (variable_index : Int) : List ModelVariable → Nat → Option Nat → Option Nat
  | [], _, acc => acc
  | v :: rest, i, acc =>
      findTrueIndexAux variable_index rest (i + 1)
        (if v.Id = variable_index then some i else acc)

/-- Embeds the computation of true_index in BMAModel.knockout_variable:
none when no variable carries the requested Id. -/
def findTrueIndex (vars : List ModelVariable) (variable_index : Int) : Option Nat :=
  findTrueIndexAux variable_index vars 0 none

/-- Replaces the Formula field of the variable at a given list position,
embedding the assignment data.Model.Variables[true_index].Formula = formula. -/
def modifyFormula : List ModelVariable → Nat → String → List ModelVariable
  | [], _, _ => []
  | v :: rest, 0, f => { v with Formula := f } :: rest
  | v :: rest, i + 1, f => v :: modifyFormula rest i f

/-- Embeds BMAModel.knockout_variable.  When no variable has the requested
Id, true_index stays None and the Python subscript raises TypeError before
any assignment happens, so the error case carries no new state; on success
the matched variable formula is replaced in self.data and the cached QN is
set to None. -/
def BMAModel.knockout_variable (m : BMAModel) (variable_index : Int) (formula : String) :
    Except String BMAModel :=
  match findTrueIndex m.data.Variables variable_index with
  | none => Except.error ("TypeError: list indices must be integers or slices, not NoneType")
  | some i =>
      Except.ok
        { data := { m.data with Variables := modifyFormula m.data.Variables i formula },
          qnCache := none }

/-- State of the model object after a knockout_variable call: the updated
object on success, the unchanged object when the call raised (the raise in
the source happens before any assignment to self). -/
def knockoutPost (m : BMAModel) (variable_index : Int) (formula : String) : BMAModel :=
  match m.knockout_variable variable_index formula with
  | Except.ok m2 => m2
  | Except.error _ => m

/-! Trace flattening (utilities.py). -/

/-- The caret character separating the variable id from the timestep in a
trace key. -/
def caret : Char := Char.ofNat 94

/-- Splits a character list at every separator occurrence, embedding the
Python str.split applied to the trace keys; acc collects the current part
in reverse.  A list with no separator yields one part, like str.split. -/
def splitCharAux (sep : Char) : List Char → List Char → List (List Char)
  | [], acc => [acc.reverse]
  | c :: rest, acc =>
      if c = sep then acc.reverse :: splitCharAux sep rest []
      else splitCharAux sep rest (c :: acc)

/-- Embeds int(...) applied to one split part, digit by digit. -/
def parseNatAux : List Char → Nat → Option Nat
  | [], acc => some acc
  | c :: rest, acc =>
      if c.isDigit then parseNatAux rest (acc * 10 + (c.toNat - 48)) else none

/-- Embeds int(...) applied to one split part: a nonempty all-digit part is
read as a number, anything else raises ValueError, reported as none (signs
and surrounding whitespace, which int also accepts, never occur in the
variableId^timestep keys the spec describes). -/
def parseNatChars : List Char → Option Nat
  | [] => none
  | cs => parseNatAux cs 0

/-- Embeds the key parsing in utilities.bmaTrace_to_dict: split the key on
the caret, part 0 is the variable id and part 1 is the timestep (extra parts
are ignored, exactly as indexing the split list does); a key without a caret
or with a non-numeric part raises in Python, reported here as none. -/
def parseKey (key : String) : Option (Nat × Nat) :=
  match splitCharAux caret key.data [] with
  | v :: t :: _ =>
      match parseNatChars v, parseNatChars t with
      | some vn, some tn => some (vn, tn)
      | _, _ => none
  | _ => none

/-- Parsed trace entry: variable id, timestep, recorded value. -/
abbrev TraceEntry := Nat × Nat × Int

/-- Embeds the per-key parsing pass shared by both loops of
utilities.bmaTrace_to_dict; the first unparseable key raises, reported as none. -/
def parseTrace : List (String × Int) → Option (List TraceEntry)
  | [] => some []
  | kv :: rest =>
      match parseKey kv.1 with
      | none => none
      | some vt =>
          match parseTrace rest with
          | none => none
          | some prest => some ((vt.1, vt.2, kv.2) :: prest)

/-- Embeds the first loop of bmaTrace_to_dict: timepoints is the running
maximum of time + 1 over all keys, starting from 0. -/
def timepointsOf (parsed : List TraceEntry) : Nat :=
  parsed.foldl (fun acc e => max acc (e.2.1 + 1)) 0

/-- Embeds variables = list(set(...)) in bmaTrace_to_dict: the variable ids
occurring in the keys, each once (a Python set iterates in an unspecified
order, so one canonical duplicate-free order stands in for it). -/
def varsOf (parsed : List TraceEntry) : List Nat :=
  (parsed.map (fun e => e.1)).dedup

/-- Flattened trace table: variable id to the row of per-timestep cells,
a cell being None when no key recorded that timestep. -/
abbrev TraceDict := List (Nat × List (Option Int))

/-- Embeds the initialisation result[var] = [None for i in range(timepoints)]. -/
def initTable (vs : List Nat) (timepoints : Nat) : TraceDict :=
  vs.map (fun v => (v, List.replicate timepoints (none : Option Int)))

/-- Embeds the assignment result[var][time] = trace[key]: update the row of
var at position time. -/
def setCell : TraceDict → Nat → Nat → Int → TraceDict
  | [], _, _, _ => []
  | kv :: rest, v, t, x =>
      (if kv.1 = v then (kv.1, kv.2.set t (some x)) else kv) :: setCell rest v t x

/-- Embeds the second loop of bmaTrace_to_dict: write every recorded value
into its cell, in key order. -/
def fillTable (parsed : List TraceEntry) (res : TraceDict) : TraceDict :=
  parsed.foldl (fun r e => setCell r e.1 e.2.1 e.2.2) res

/-- Embeds utilities.bmaTrace_to_dict: parse every key, size the table from
the largest timestep, initialise every cell to None and fill in the recorded
values; none is the exception channel for unparseable keys. -/
def bmaTrace_to_dict (trace : List (String × Int)) : Option TraceDict :=
  match parseTrace trace with
  | none => none
  | some parsed => some (fillTable parsed (initTable (varsOf parsed) (timepointsOf parsed)))

/-- First-match association lookup, the dictionary access of the embedding. -/
def lookupKey {κ α : Type} [DecidableEq κ] : List (κ × α) → κ → Option α
  | [], _ => none
  | kv :: rest, k => if kv.1 = k then some kv.2 else lookupKey rest k

/-! Stability result unpacking (stability.py). -/

/-- Raw per-variable range map of one proof-history timepoint, as iterated
by stability._timepoint_to_python: key and an (Item1, Item2) interval. -/
abbrev RawRangeMap := List (Int × (Int × Int))

/-- Raw proof history: ordered (timestep, range map) pairs from the prover. -/
abbrev RawHistory := List (Int × RawRangeMap)

/-- Embeds stability._timepoint_to_python: reads the timestep from Item1 and
walks the range map in order, converting each key and each interval; the
numeric conversions are identities in the embedding, so the traversal keeps
every entry in its original order. -/
def timepoint_to_python (tp : Int × RawRangeMap) : Int × RawRangeMap :=
  (tp.1, tp.2.map (fun kv => (kv.1, (kv.2.1, kv.2.2))))

/-- Raw result of the stabilization prover.  Modelled from the spec: the
union type lives in the external DLL, not under src/, with the two cases
named SRStabilizing and SRNotStabilizing, each carrying the proof history;
stability.unpackProof dispatches on the runtime case name and reads
result.Item. -/
inductive StabilityRaw where
  | SRStabilizing (history : RawHistory)
  | SRNotStabilizing (history : RawHistory)
deriving DecidableEq

/-- The Item payload of either case, as read by unpackProof. -/
def StabilityRaw.item : StabilityRaw → RawHistory
  | .SRStabilizing h => h
  | .SRNotStabilizing h => h

/-- Output dictionary of unpackProof: the stable flag and the history. -/
structure ProofOutput where
  stable : Bool
  history : RawHistory
deriving DecidableEq

/-- Embeds stability.unpackProof: the case name SRStabilizing gives stable
true and any other case gives false; the history is the converted raw
history, in the order produced by the prover. -/
def unpackProof (result : StabilityRaw) : ProofOutput :=
  { stable :=
      match result with
      | .SRStabilizing _ => true
      | .SRNotStabilizing _ => false,
    history := (StabilityRaw.item result).map timepoint_to_python }

/-- Raw counterexample union of the prover.  Modelled from the spec: the
type lives in the external DLL, not under src/; the four case names that
stability.unpackCex dispatches on are CExCycle, CExFixpoint, CExEndComponent
(one trace map each, keys of the form variableId^timestep) and
CExBifurcation (two trace maps). -/
inductive RawCex where
  | CExCycle (item : List (String × Int))
  | CExFixpoint (item : List (String × Int))
  | CExEndComponent (item : List (String × Int))
  | CExBifurcation (item1 item2 : List (String × Int))
deriving DecidableEq

/-- Payload shape of an unpacked counterexample: one flattened trace for
the cycle, fixpoint and end-component cases, a pair for a bifurcation. -/
inductive CexExample where
  | single (table : TraceDict)
  | pair (first second : TraceDict)
deriving DecidableEq

/-- Output dictionary of unpackCex: the case name and the example payload. -/
structure CexOutput where
  Result : String
  Example : CexExample
deriving DecidableEq

/-- Embeds stability.unpackCex: None in means None out; otherwise dispatch
on the case name, flattening each trace map with bmaTrace_to_dict; the outer
Option is the exception channel of the flattening step. -/
def unpackCex (result : Option RawCex) : Option (Option CexOutput) :=
  match result with
  | none => some none
  | some cex =>
      match cex with
      | .CExCycle m =>
          (bmaTrace_to_dict m).map (fun sim =>
            some { Result := ("CExCycle"), Example := CexExample.single sim })
      | .CExFixpoint m =>
          (bmaTrace_to_dict m).map (fun sim =>
            some { Result := ("CExFixpoint"), Example := CexExample.single sim })
      | .CExEndComponent m =>
          (bmaTrace_to_dict m).map (fun sim =>
            some { Result := ("CExEndComponent"), Example := CexExample.single sim })
      | .CExBifurcation m1 m2 =>
          match bmaTrace_to_dict m1, bmaTrace_to_dict m2 with
          | some s1, some s2 =>
              some (some { Result := ("CExBifurcation"), Example := CexExample.pair s1 s2 })
          | _, _ => none

/-- Raw output of the stabilization prover call: the stability union in
Item1 and the optional counterexample in Item2, as read by unpackResult. -/
structure RawProofResult where
  Item1 : StabilityRaw
  Item2 : Option RawCex
deriving DecidableEq

/-- Output dictionary of unpackResult. -/
structure StabilityOutput where
  ProofProgression : ProofOutput
  CounterExample : Option CexOutput
deriving DecidableEq

/-- Embeds stability.unpackResult: unpack the proof progression from Item1
and the counterexample from Item2. -/
def unpackResult (proofResult : RawProofResult) : Option StabilityOutput :=
  match unpackCex proofResult.Item2 with
  | none => none
  | some cex => some { ProofProgression := unpackProof proofResult.Item1, CounterExample := cex }

/-- Embeds stability.check_stability.  The invocation of the external
stabilization_prover is not under src/, so the raw prover output is the
argument here; the function returns unpackResult of it. -/
def check_stability (proverResult : RawProofResult) : Option StabilityOutput :=
  unpackResult proverResult

/-! Simulation wrapper (simulation.py). -/

/-- Engine state: variable id to current value, the F# map of the engine. -/
abbrev SimState := List (Int × Int)

/-- Clamp into the declared range.  Modelled from the spec: BMA semantics
clamp each committed value into the declared range of its variable. -/
def clamp (lo hi x : Int) : Int := max lo (min hi x)

/-- Modelled from the spec: one synchronous engine step (spec section 4.4);
every variable reads state t and commits clamp of what its formula evaluates
to.  Formula evaluation is performed by the external engine whose formula
parser is out of scope (spec section 6), so the evaluator is a parameter; a
failed evaluation (EvaluationError, spec section 4.2) aborts the step. -/
def syncStep (evalF : String → SimState → Option Int) (qn : QN) (s : SimState) :
    Option SimState :=
  qn.mapM (fun node =>
    (evalF node.formula s).map (fun x => (node.var, clamp node.rangeFrom node.rangeTo x)))

/-- Modelled from the spec: Simulate.simulate_many lives in the external
DLL and is not under src/; per the contract in spec section 4.4 the run
produces a trace of length steps + 1 whose first entry is the supplied
initial state, each later entry obtained by one synchronous step. -/
def simulate_many (evalF : String → SimState → Option Int) (qn : QN) :
    SimState → Nat → Option (List SimState)
  | t0, 0 => some [t0]
  | t0, steps + 1 =>
      match syncStep evalF qn t0 with
      | none => none
      | some s1 =>
          match simulate_many evalF qn s1 steps with
          | none => none
          | some rest => some (t0 :: rest)

/-- Per-variable result dictionary built by simulation.simulate. -/
abbrev ResultDict := List (Int × List Int)

/-- Appends a value to the row of one key of the result dictionary. -/
def appendAll : ResultDict → Int → Int → ResultDict
  | [], _, _ => []
  | kv :: rest, v, x => (if kv.1 = v then (kv.1, kv.2 ++ [x]) else kv) :: appendAll rest v x

/-- Embeds result[var].append(value) including the KeyError raised when var
is not a key of the result dictionary. -/
def dictAppend (res : ResultDict) (v : Int) (x : Int) : Option ResultDict :=
  if res.any (fun kv => kv.1 = v) then some (appendAll res v x) else none

/-- Embeds the inner loop of simulation.simulate for one variable: read
point[var] from every trace point in order (KeyError when absent) and append
it to the row of var. -/
def innerLoop (v : Int) : List SimState → ResultDict → Option ResultDict
  | [], res => some res
  | point :: rest, res =>
      match lookupKey point v with
      | none => none
      | some x =>
          match dictAppend res v x with
          | none => none
          | some res2 => innerLoop v rest res2

/-- Embeds the outer loop of simulation.simulate over the variable list. -/
def outerLoop (trace : List SimState) : List Int → ResultDict → Option ResultDict
  | [], res => some res
  | v :: vars, res =>
      match innerLoop v trace res with
      | none => none
      | some res2 => outerLoop trace vars res2

/-- Embeds simulation.simulate: t0 is filled with zeros only when
initial_values is None, and an explicitly passed mapping is never copied
into t0, so the engine receives the empty initial map in that case; the
engine trace is then flattened into the per-variable dictionary whose keys
are the keys of the first trace point; none is the exception channel
(an engine failure or a KeyError in the flattening loops). -/
def simulate (evalF : String → SimState → Option Int) (qn : QN) (steps : Nat)
    (initial_values : Option (List (Int × Int))) : Option ResultDict :=
  let vars := qn.map (fun n => n.var)
  let t0 : SimState :=
    match initial_values with
    | none => vars.map (fun v => (v, (0 : Int)))
    | some _ => []
  match simulate_many evalF qn t0 steps with
  | none => none
  | some trace =>
      match trace.head? with
      | none => none
      | some first => outerLoop trace vars (first.map (fun kv => (kv.1, ([] : List Int))))

/-- Concrete evaluator instance for concrete runs: a formula that is a
nonnegative integer literal evaluates to that constant, anything else fails. -/
def constEval : String → SimState → Option Int :=
  fun f _ => (parseNatChars f.data).map (fun n => (n : Int))

/-! Helper functions used only to state and prove the theorems below. -/

/-- Values of one variable across a trace, in trace order, failing where the
variable is absent from a point; mirrors the reads of the inner loop. -/
def collectVals (v : Int) : List SimState → Option (List Int)
  | [] => some []
  | point :: rest =>
      match lookupKey point v with
      | none => none
      | some x => (collectVals v rest).map (fun xs => x :: xs)

/-- Apply a list of (position, value) writes to a row, in order. -/
def applyWrites (row : List (Option Int)) (ws : List (Nat × Int)) : List (Option Int) :=
  ws.foldl (fun r p => r.set p.1 (some p.2)) row

/-- The (position, value) writes that the fill loop performs on the row of
one given variable, in key order. -/
def writesFor (parsed : List TraceEntry) (v : Nat) : List (Nat × Int) :=
  (parsed.filter (fun e => e.1 = v)).map (fun e => (e.2.1, e.2.2))

/-! Concrete example data used by counterexamples and witnesses. -/

/-- Concrete model variable with Id 0 and formula 1. -/
def exVariable : ModelVariable :=
  { Id := 0, Name := ("v0"), RangeFrom := 0, RangeTo := 1, Formula := ("1") }

/-- Concrete one-variable model dictionary. -/
def exModelData : ModelData :=
  { Name := ("toy"), Variables := [exVariable], Relationships := [] }

/-- Concrete BMAModel wrapping exModelData, with no cached QN. -/
def exModel : BMAModel := { data := exModelData, qnCache := none }

/-- The model object produced by knocking variable 0 of exModel out to 0. -/
def exKO : BMAModel :=
  { data := { Name := ("toy"),
              Variables := [{ Id := 0, Name := ("v0"), RangeFrom := 0, RangeTo := 1,
                              Formula := ("0") }],
              Relationships := [] },
    qnCache := none }

/-- Concrete one-node engine network matching exModel. -/
def exQN : QN := [{ var := 0, rangeFrom := 0, rangeTo := 1, formula := ("1") }]

/-- Concrete proof history with one timepoint. -/
def exHistory : RawHistory := [((0 : Int), [((0 : Int), ((0 : Int), (1 : Int)))])]

/-- Concrete raw prover output: stabilizing, no counterexample. -/
def exProofResult : RawProofResult :=
  { Item1 := StabilityRaw.SRStabilizing exHistory, Item2 := none }

/-- Concrete well-formed counterexample trace map for variable 0, steps 0 and 1. -/
def exCexTrace : List (String × Int) := [(("0^0"), (0 : Int)), (("0^1"), (1 : Int))]

/-- Flattened form of exCexTrace. -/
def exCexDict : TraceDict := [(0, [some 0, some 1])]

/-- Concrete two-variable trace map with keys 0^0 and 1^1. -/
def exTrace2 : List (String × Int) := [(("0^0"), (1 : Int)), (("1^1"), (7 : Int))]


/-- Unpacked output of check_stability on exProofResult. -/
def exOutput : StabilityOutput :=
  { ProofProgression := unpackProof (StabilityRaw.SRStabilizing exHistory),
    CounterExample := none }


/-- Parsed form of exTrace2. -/
def exParsed2 : List TraceEntry := [(0, 0, 1), (1, 1, 7)]

/-- Flattened form of exTrace2. -/
def exTable2 : TraceDict := [(0, [some 1, none]), (1, [none, some 7])]

/-- Result of simulate on exQN for one step with the default initial state. -/
def exSimRes : ResultDict := [((0 : Int), [(0 : Int), (1 : Int)])]

/-! Lemmas about the knockout scan and formula replacement. -/

lemma findTrueIndexAux_no_match (idx : Int) (l : List ModelVariable) (i : Nat) (acc : Option Nat)
    (h : ∀ v ∈ l, v.Id ≠ idx) : findTrueIndexAux idx l i acc = acc := by
  induction l generalizing i acc with
  | nil => rfl
  | cons v rest ih =>
      have hv : v.Id ≠ idx := h v (List.mem_cons_self v rest)
      simp only [findTrueIndexAux, if_neg hv]
      exact ih (i + 1) acc (fun w hw => h w (List.mem_cons_of_mem v hw))

lemma findTrueIndex_eq_none (l : List ModelVariable) (idx : Int)
    (h : ∀ v ∈ l, v.Id ≠ idx) : findTrueIndex l idx = none :=
  findTrueIndexAux_no_match idx l 0 none h

lemma modifyFormula_getElem?_self (l : List ModelVariable) (i : Nat) (f : String) :
    (modifyFormula l i f)[i]? = (l[i]?).map (fun v => { v with Formula := f }) := by
  induction l generalizing i with
  | nil => simp [modifyFormula]
  | cons v rest ih =>
      cases i with
      | zero => simp [modifyFormula]
      | succ j => simpa [modifyFormula] using ih j

lemma modifyFormula_getElem?_ne (l : List ModelVariable) (i j : Nat) (f : String)
    (h : j ≠ i) : (modifyFormula l i f)[j]? = l[j]? := by
  induction l generalizing i j with
  | nil => simp [modifyFormula]
  | cons v rest ih =>
      cases i with
      | zero =>
          cases j with
          | zero => exact absurd rfl h
          | succ j2 => simp [modifyFormula]
      | succ i2 =>
          cases j with
          | zero => simp [modifyFormula]
          | succ j2 => simpa [modifyFormula] using ih i2 j2 (fun hh => h (by rw [hh]))

/-! Claim C9: knockout of a nonexistent variable id is atomic. -/

/-- C9: for a variable id that matches no variable, knockout_variable raises
(true_index stays None, so the subscript fails with TypeError before any
assignment or cache invalidation), and the model object after the call is
exactly the model object before it. -/
theorem C9_knockout_unknown_id_atomic (m : BMAModel) (idx : Int) (f : String)
    (h : ∀ v ∈ m.data.Variables, v.Id ≠ idx) :
    m.knockout_variable idx f =
      Except.error ("TypeError: list indices must be integers or slices, not NoneType") ∧
    knockoutPost m idx f = m := by
  have hf := findTrueIndex_eq_none m.data.Variables idx h
  constructor
  · unfold BMAModel.knockout_variable
    rw [hf]
  · unfold knockoutPost BMAModel.knockout_variable
    rw [hf]

/-- C9 witness: the theorem applied to the concrete model and the id 5,
which no variable of the model carries. -/
theorem C9_witness :
    exModel.knockout_variable 5 ("0") =
      Except.error ("TypeError: list indices must be integers or slices, not NoneType") ∧
    knockoutPost exModel 5 ("0") = exModel :=
  C9_knockout_unknown_id_atomic exModel 5 ("0") (by decide)

/-! Claim C2: knockout does mutate the original model object. -/

/-- C2 counterexample: knocking variable 0 of the concrete model out to the
formula 0 changes the model data held by the model object itself — the
matched variable formula is 1 before the call and 0 after it — so the
operation does not leave the original network object with its original
variable definitions, contrary to the claim. -/
theorem C2_counterexample :
    (knockoutPost exModel 0 ("0")).data ≠ exModel.data ∧
    (knockoutPost exModel 0 ("0")).data.Variables.map (fun v => v.Formula) = [("0")] ∧
    exModel.data.Variables.map (fun v => v.Formula) = [("1")] := by
  refine ⟨by decide, by decide, by decide⟩

/-- C2 amended: knockout_variable updates the model object in place; on
success the variable at the matched index carries the replacement formula,
every other variable entry, the model name and the relationships are
unchanged, and the cached QN is invalidated.  A caller who wants to keep the
original verdict reproducible must copy the model first (BMAModel supports
deepcopy, which regenerates an independent object from copied data). -/
theorem C2_knockout_in_place (m : BMAModel) (idx : Int) (f : String) (i : Nat) (m2 : BMAModel)
    (hfind : findTrueIndex m.data.Variables idx = some i)
    (hres : m.knockout_variable idx f = Except.ok m2) :
    m2.data.Variables[i]? = (m.data.Variables[i]?).map (fun v => { v with Formula := f }) ∧
    (∀ j, j ≠ i → m2.data.Variables[j]? = m.data.Variables[j]?) ∧
    m2.data.Name = m.data.Name ∧
    m2.data.Relationships = m.data.Relationships ∧
    m2.qnCache = none := by
  unfold BMAModel.knockout_variable at hres
  rw [hfind] at hres
  cases hres
  exact ⟨modifyFormula_getElem?_self _ _ _,
    fun j hj => modifyFormula_getElem?_ne _ _ _ _ hj, rfl, rfl, rfl⟩

/-- C2 witness: the amended statement applied to the concrete model. -/
theorem C2_witness :
    exKO.data.Variables[0]? =
      (exModel.data.Variables[0]?).map (fun v => { v with Formula := ("0") }) ∧
    exKO.qnCache = none :=
  ⟨(C2_knockout_in_place exModel 0 ("0") 0 exKO (by decide) (by rfl)).1,
   (C2_knockout_in_place exModel 0 ("0") 0 exKO (by decide) (by rfl)).2.2.2.2⟩

/-! Claim C7: the cached QN is invalidated and rebuilt after a knockout. -/

/-- C7: after a successful knockout the cached QN is None, and the next
access of the qn property rebuilds the network from the current model data
(caching exactly that rebuilt value), rather than returning a stale
structure. -/
theorem C7_qn_rebuilt_after_knockout (m : BMAModel) (idx : Int) (f : String) (m2 : BMAModel)
    (hres : m.knockout_variable idx f = Except.ok m2) :
    m2.qnCache = none ∧
    (m2.qn).1 = model_to_qn m2.data ∧
    (m2.qn).2 = { m2 with qnCache := some (model_to_qn m2.data) } := by
  unfold BMAModel.knockout_variable at hres
  cases hfind : findTrueIndex m.data.Variables idx with
  | none => rw [hfind] at hres; exact absurd hres (by simp)
  | some i =>
      rw [hfind] at hres
      cases hres
      exact ⟨rfl, rfl, rfl⟩

/-- C7 witness: the theorem applied to the concrete knockout. -/
theorem C7_witness :
    exKO.qnCache = none ∧ (exKO.qn).1 = model_to_qn exKO.data :=
  ⟨(C7_qn_rebuilt_after_knockout exModel 0 ("0") exKO (by rfl)).1,
   (C7_qn_rebuilt_after_knockout exModel 0 ("0") exKO (by rfl)).2.1⟩

/-! Claim C5: verdict and history of the unpacked stability result. -/

/-- C5: unpackProof reports stable exactly for the SRStabilizing case; the
unpacked history has the length of the raw prover history and its entry i is
the converted raw entry i, so the prover order is preserved; and
check_stability passes the unpacked proof progression through unchanged. -/
theorem C5_stability_verdict_and_history (result : StabilityRaw) :
    ((unpackProof result).stable = true ↔ ∃ h, result = StabilityRaw.SRStabilizing h) ∧
    (unpackProof result).history.length = (StabilityRaw.item result).length ∧
    (∀ i : Nat, ((unpackProof result).history)[i]? =
      ((StabilityRaw.item result)[i]?).map timepoint_to_python) ∧
    (∀ pr : RawProofResult, ∀ out, check_stability pr = some out →
      out.ProofProgression = unpackProof pr.Item1) := by
  refine ⟨?_, ?_, ?_, ?_⟩
  · cases result with
    | SRStabilizing h => simp [unpackProof]
    | SRNotStabilizing h => simp [unpackProof]
  · simp [unpackProof]
  · intro i
    simp [unpackProof]
  · intro pr out hout
    unfold check_stability unpackResult at hout
    cases hcex : unpackCex pr.Item2 with
    | none => rw [hcex] at hout; exact absurd hout (by simp)
    | some cex => rw [hcex] at hout; cases hout; rfl

/-- C5 witness: the theorem applied to a concrete stabilizing prover output. -/
theorem C5_witness :
    (unpackProof (StabilityRaw.SRStabilizing exHistory)).stable = true ∧
    exOutput.ProofProgression = unpackProof exProofResult.Item1 :=
  ⟨(C5_stability_verdict_and_history (StabilityRaw.SRStabilizing exHistory)).1.mpr
      ⟨exHistory, rfl⟩,
   (C5_stability_verdict_and_history (StabilityRaw.SRStabilizing exHistory)).2.2.2
      exProofResult exOutput (by rfl)⟩

/-! Claim C6: the four counterexample shapes. -/

/-- C6: unpackCex realises exactly the four tagged shapes: no counterexample
unpacks to None; the cycle, fixpoint and end-component cases each carry one
flattened trace; a bifurcation carries a pair of two flattened traces. -/
theorem C6_counterexample_shapes :
    unpackCex none = some none ∧
    (∀ m d, bmaTrace_to_dict m = some d →
      unpackCex (some (RawCex.CExCycle m)) =
        some (some { Result := ("CExCycle"), Example := CexExample.single d }) ∧
      unpackCex (some (RawCex.CExFixpoint m)) =
        some (some { Result := ("CExFixpoint"), Example := CexExample.single d }) ∧
      unpackCex (some (RawCex.CExEndComponent m)) =
        some (some { Result := ("CExEndComponent"), Example := CexExample.single d })) ∧
    (∀ m1 m2 d1 d2, bmaTrace_to_dict m1 = some d1 → bmaTrace_to_dict m2 = some d2 →
      unpackCex (some (RawCex.CExBifurcation m1 m2)) =
        some (some { Result := ("CExBifurcation"), Example := CexExample.pair d1 d2 })) := by
  refine ⟨rfl, ?_, ?_⟩
  · intro m d hd
    refine ⟨?_, ?_, ?_⟩ <;> simp [unpackCex, hd]
  · intro m1 m2 d1 d2 h1 h2
    simp [unpackCex, h1, h2]

/-- C6 witness: the theorem applied to a concrete well-formed cycle trace. -/
theorem C6_witness :
    unpackCex (some (RawCex.CExCycle exCexTrace)) =
      some (some { Result := ("CExCycle"), Example := CexExample.single exCexDict }) :=
  ((C6_counterexample_shapes.2.1 exCexTrace exCexDict (by decide)).1)

/-! Claim C8: the simulator wrapper is deterministic. -/

/-- C8: the simulate embedding is a pure function of the network, the step
count and the initial values (simulation.py keeps no module-level mutable
state that simulate reads or writes, and the spec-modelled engine call is a
pure function as well), so two calls with identical inputs return identical
per-variable value sequences. -/
theorem C8_simulate_deterministic (evalF : String → SimState → Option Int) (qn : QN)
    (steps : Nat) (initial_values : Option (List (Int × Int))) :
    simulate evalF qn steps initial_values = simulate evalF qn steps initial_values := rfl

/-! Claim C1: simulate drops a supplied initial_values mapping. -/

/-- C1 fails on the code: simulate never copies a supplied initial_values
mapping into the initial engine state t0 (only the None default fills t0,
with zeros), so the result is independent of which initial state the caller
supplies; at the concrete failing input the run does not produce the claimed
trace of length 2 beginning at the supplied state 0 maps to 1, it fails
(the first trace point is the empty state, so building the per-variable
dictionary raises KeyError), reported as none. -/
theorem C1_initial_values_dropped :
    (∀ evalF qn steps iv1 iv2,
      simulate evalF qn steps (some iv1) = simulate evalF qn steps (some iv2)) ∧
    simulate constEval exQN 1 (some [((0 : Int), (1 : Int))]) = none := by
  refine ⟨fun evalF qn steps iv1 iv2 => rfl, by decide⟩

/-! Lemmas about the flattening table. -/

lemma lookupKey_setCell (res : TraceDict) (v t : Nat) (x : Int) (w : Nat) :
    lookupKey (setCell res v t x) w =
      if w = v then (lookupKey res w).map (fun row => row.set t (some x))
      else lookupKey res w := by
  induction res with
  | nil =>
      simp only [setCell, lookupKey]
      split <;> simp
  | cons kv rest ih =>
      obtain ⟨k, row⟩ := kv
      by_cases hk : k = v
      · subst hk
        by_cases hw : k = w
        · subst hw
          simp [setCell, lookupKey]
        · simp [setCell, lookupKey, hw, ih]
      · by_cases hw : k = w
        · subst hw
          simp [setCell, lookupKey, hk]
        · simp [setCell, lookupKey, hk, hw, ih]

lemma lookupKey_fillTable (parsed : List TraceEntry) (res : TraceDict) (w : Nat) :
    lookupKey (fillTable parsed res) w =
      (lookupKey res w).map (fun row => applyWrites row (writesFor parsed w)) := by
  induction parsed generalizing res with
  | nil =>
      simp only [fillTable, List.foldl_nil, writesFor, List.filter_nil, List.map_nil]
      cases lookupKey res w <;> simp [applyWrites]
  | cons e rest ih =>
      have hstep : fillTable (e :: rest) res = fillTable rest (setCell res e.1 e.2.1 e.2.2) := rfl
      rw [hstep, ih, lookupKey_setCell]
      by_cases hw : w = e.1
      · have hws : writesFor (e :: rest) w = (e.2.1, e.2.2) :: writesFor rest w := by
          have he2 : e.1 = w := hw.symm
          simp [writesFor, List.filter_cons, he2]
        rw [hws, if_pos hw]
        cases lookupKey res w <;> simp [applyWrites]
      · have hw2 : ¬(e.1 = w) := fun hh => hw hh.symm
        have hws : writesFor (e :: rest) w = writesFor rest w := by
          simp [writesFor, List.filter_cons, hw2]
        rw [hws, if_neg hw]

lemma applyWrites_length (row : List (Option Int)) (ws : List (Nat × Int)) :
    (applyWrites row ws).length = row.length := by
  induction ws generalizing row with
  | nil => rfl
  | cons p ws ih =>
      show (applyWrites (row.set p.1 (some p.2)) ws).length = row.length
      rw [ih]
      simp

lemma applyWrites_getElem?_not_mem (row : List (Option Int)) (ws : List (Nat × Int)) (t : Nat)
    (h : ∀ x, (t, x) ∉ ws) : (applyWrites row ws)[t]? = row[t]? := by
  induction ws generalizing row with
  | nil => rfl
  | cons p ws ih =>
      have hp : p.1 ≠ t := by
        intro hh
        have hpe : (t, p.2) = p := by rw [← hh]
        exact h p.2 (hpe ▸ List.mem_cons_self p ws)
      have hstep : applyWrites row (p :: ws) = applyWrites (row.set p.1 (some p.2)) ws := rfl
      rw [hstep, ih _ (fun x hx => h x (List.mem_cons_of_mem p hx))]
      exact List.getElem?_set_ne hp

lemma applyWrites_getElem?_mem (row : List (Option Int)) (ws : List (Nat × Int)) (t : Nat)
    (x : Int) (hmem : (t, x) ∈ ws) (hnd : (ws.map Prod.fst).Nodup) (hlt : t < row.length) :
    (applyWrites row ws)[t]? = some (some x) := by
  induction ws generalizing row with
  | nil => cases hmem
  | cons p ws ih =>
      have hstep : applyWrites row (p :: ws) = applyWrites (row.set p.1 (some p.2)) ws := rfl
      rw [hstep]
      rw [List.map_cons, List.nodup_cons] at hnd
      rcases List.mem_cons.mp hmem with heq | htail
      · have hfst : p.1 = t := by rw [← heq]
        have hsnd : p.2 = x := by rw [← heq]
        have hnotin : ∀ y, (t, y) ∉ ws := by
          intro y hy
          exact hnd.1 (hfst ▸ List.mem_map.mpr ⟨(t, y), hy, rfl⟩)
        rw [applyWrites_getElem?_not_mem _ _ _ hnotin, hfst, hsnd]
        exact List.getElem?_set_self hlt
      · refine ih _ htail hnd.2 ?_
        simpa using hlt

lemma lookupKey_initTable (vs : List Nat) (tp : Nat) (v : Nat) (hv : v ∈ vs) :
    lookupKey (initTable vs tp) v = some (List.replicate tp none) := by
  induction vs with
  | nil => cases hv
  | cons a rest ih =>
      by_cases ha : a = v
      · simp [initTable, lookupKey, ha]
      · rcases List.mem_cons.mp hv with h1 | h2
        · exact absurd h1.symm ha
        · simpa [initTable, lookupKey, ha] using ih h2

lemma mem_writesFor (parsed : List TraceEntry) (v : Nat) (t : Nat) (x : Int) :
    (t, x) ∈ writesFor parsed v ↔ (v, t, x) ∈ parsed := by
  constructor
  · intro h
    rcases List.mem_map.mp h with ⟨e, he, heq⟩
    obtain ⟨e1, e2, e3⟩ := e
    have hef := List.mem_filter.mp he
    have hev : e1 = v := by simpa using hef.2
    have h2 : e2 = t := by
      have := congrArg Prod.fst heq
      simpa using this
    have h3 : e3 = x := by
      have := congrArg Prod.snd heq
      simpa using this
    have hin := hef.1
    rw [hev, h2, h3] at hin
    exact hin
  · intro h
    exact List.mem_map.mpr ⟨(v, t, x), List.mem_filter.mpr ⟨h, by simp⟩, rfl⟩

lemma writesFor_fst_nodup (parsed : List TraceEntry) (v : Nat)
    (hnd : (parsed.map (fun e => (e.1, e.2.1))).Nodup) :
    ((writesFor parsed v).map Prod.fst).Nodup := by
  induction parsed with
  | nil => simp [writesFor]
  | cons e rest ih =>
      rw [List.map_cons, List.nodup_cons] at hnd
      by_cases he : e.1 = v
      · have hstep : writesFor (e :: rest) v = (e.2.1, e.2.2) :: writesFor rest v := by
          simp [writesFor, List.filter_cons, he]
        rw [hstep, List.map_cons, List.nodup_cons]
        refine ⟨?_, ih hnd.2⟩
        intro hmem
        rcases List.mem_map.mp hmem with ⟨p, hp, hpe⟩
        obtain ⟨pt, px⟩ := p
        have hrest : (v, pt, px) ∈ rest := (mem_writesFor rest v pt px).mp hp
        refine hnd.1 (List.mem_map.mpr ⟨(v, pt, px), hrest, ?_⟩)
        have hpt : pt = e.2.1 := by simpa using hpe
        rw [he, hpt]
      · have hstep : writesFor (e :: rest) v = writesFor rest v := by
          simp [writesFor, List.filter_cons, he]
        rw [hstep]
        exact ih hnd.2

lemma foldl_max_le_init (l : List TraceEntry) (acc : Nat) :
    acc ≤ l.foldl (fun a e => max a (e.2.1 + 1)) acc := by
  induction l generalizing acc with
  | nil => exact Nat.le_refl acc
  | cons e rest ih => exact Nat.le_trans (Nat.le_max_left _ _) (ih _)

lemma foldl_max_mem (l : List TraceEntry) (acc : Nat) (e : TraceEntry) (he : e ∈ l) :
    e.2.1 + 1 ≤ l.foldl (fun a x => max a (x.2.1 + 1)) acc := by
  induction l generalizing acc with
  | nil => cases he
  | cons a rest ih =>
      rcases List.mem_cons.mp he with h1 | h2
      · subst h1
        exact Nat.le_trans (Nat.le_max_right acc (e.2.1 + 1)) (foldl_max_le_init rest _)
      · exact ih _ h2

lemma foldl_max_eq_or (l : List TraceEntry) (acc : Nat) :
    l.foldl (fun a x => max a (x.2.1 + 1)) acc = acc ∨
    ∃ e ∈ l, l.foldl (fun a x => max a (x.2.1 + 1)) acc = e.2.1 + 1 := by
  induction l generalizing acc with
  | nil => exact Or.inl rfl
  | cons a rest ih =>
      rw [List.foldl_cons]
      rcases ih (max acc (a.2.1 + 1)) with h | ⟨e, he, heq⟩
      · rcases Nat.le_total acc (a.2.1 + 1) with hle | hle
        · exact Or.inr ⟨a, List.mem_cons_self a rest, by rw [h]; exact Nat.max_eq_right hle⟩
        · exact Or.inl (by rw [h]; exact Nat.max_eq_left hle)
      · exact Or.inr ⟨e, List.mem_cons_of_mem a he, heq⟩

lemma mem_lt_timepointsOf (parsed : List TraceEntry) (e : TraceEntry) (he : e ∈ parsed) :
    e.2.1 + 1 ≤ timepointsOf parsed :=
  foldl_max_mem parsed 0 e he

lemma timepointsOf_is_succ_max (parsed : List TraceEntry) (hne : parsed ≠ []) :
    ∃ e ∈ parsed, timepointsOf parsed = e.2.1 + 1 := by
  rcases foldl_max_eq_or parsed 0 with h | h
  · obtain ⟨a, rest, rfl⟩ := List.exists_cons_of_ne_nil hne
    have ha := foldl_max_mem (a :: rest) 0 a (List.mem_cons_self a rest)
    unfold timepointsOf at *
    omega
  · exact h

lemma parseTrace_isSome (trace : List (String × Int))
    (h : ∀ kv ∈ trace, (parseKey kv.1).isSome = true) :
    ∃ parsed, parseTrace trace = some parsed := by
  induction trace with
  | nil => exact ⟨[], rfl⟩
  | cons kv rest ih =>
      have h1 := h kv (List.mem_cons_self kv rest)
      rcases Option.isSome_iff_exists.mp h1 with ⟨vt, hvt⟩
      rcases ih (fun w hw => h w (List.mem_cons_of_mem kv hw)) with ⟨prest, hrest⟩
      exact ⟨(vt.1, vt.2, kv.2) :: prest, by simp [parseTrace, hvt, hrest]⟩

lemma parseTrace_ne_nil (trace : List (String × Int)) (parsed : List TraceEntry)
    (hp : parseTrace trace = some parsed) (hne : trace ≠ []) : parsed ≠ [] := by
  cases trace with
  | nil => exact absurd rfl hne
  | cons kv rest =>
      intro hnil
      subst hnil
      unfold parseTrace at hp
      cases hk : parseKey kv.1 with
      | none => rw [hk] at hp; cases hp
      | some vt =>
          rw [hk] at hp
          cases hr : parseTrace rest with
          | none => rw [hr] at hp; cases hp
          | some prest => rw [hr] at hp; simp at hp

/-! Claim C3: flattening does not fail on gaps. -/

/-- C3 counterexample: a trace with non-contiguous timesteps for variable 0
(timestep 1 is missing while timestep 2 is recorded) does not make the
flattening fail; it returns the table, with None in the missing cell, so the
claimed MalformedTrace failure does not happen. -/
theorem C3_counterexample :
    bmaTrace_to_dict [(("0^0"), (1 : Int)), (("0^2"), (5 : Int))] =
      some [(0, [some 1, none, some 5])] := by
  decide

/-- C3 amended: for every trace whose keys all parse as
variableId^timestep, the flattening succeeds and returns a table, so
non-contiguous timesteps and variables missing a value at some recorded
timestep are not errors; the affected cells are simply left as None
(flattening can only fail on a key that does not parse). -/
theorem C3_flattening_total (trace : List (String × Int))
    (h : ∀ kv ∈ trace, (parseKey kv.1).isSome = true) :
    (bmaTrace_to_dict trace).isSome = true := by
  rcases parseTrace_isSome trace h with ⟨parsed, hp⟩
  simp [bmaTrace_to_dict, hp]

/-- C3 witness: the amended statement applied to a concrete gapped trace. -/
theorem C3_witness :
    (bmaTrace_to_dict [(("1^0"), (2 : Int)), (("1^3"), (4 : Int))]).isSome = true :=
  C3_flattening_total [(("1^0"), (2 : Int)), (("1^3"), (4 : Int))] (by decide)

/-! Claim C4: the flattened trace is a dense 2D table. -/

/-- C4: for a trace whose keys parse and denote pairwise distinct
(variable, timestep) cells, the flattened table gives every occurring
variable a row whose length is the number of timepoints; the cell at a
recorded (variable, timestep) holds exactly the recorded value; the cell at
an unrecorded in-range timestep is exactly None, never zero; and the number
of timepoints is one plus the largest timestep occurring in any key. -/
theorem C4_dense_table (trace : List (String × Int)) (parsed : List TraceEntry)
    (table : TraceDict)
    (hp : parseTrace trace = some parsed)
    (hnd : (parsed.map (fun e => (e.1, e.2.1))).Nodup)
    (ht : bmaTrace_to_dict trace = some table) :
    (∀ v ∈ varsOf parsed,
      (lookupKey table v).map (fun row => row.length) = some (timepointsOf parsed)) ∧
    (∀ e ∈ parsed,
      (lookupKey table e.1).bind (fun row => row[e.2.1]?) = some (some e.2.2)) ∧
    (∀ v ∈ varsOf parsed, ∀ t, t < timepointsOf parsed → (∀ x, (v, t, x) ∉ parsed) →
      (lookupKey table v).bind (fun row => row[t]?) = some none) ∧
    (∀ e ∈ parsed, e.2.1 + 1 ≤ timepointsOf parsed) ∧
    (trace ≠ [] → ∃ e ∈ parsed, timepointsOf parsed = e.2.1 + 1) := by
  have htab : table = fillTable parsed (initTable (varsOf parsed) (timepointsOf parsed)) := by
    unfold bmaTrace_to_dict at ht
    rw [hp] at ht
    simp at ht
    exact ht.symm
  subst htab
  have hrow : ∀ v, v ∈ varsOf parsed →
      lookupKey (fillTable parsed (initTable (varsOf parsed) (timepointsOf parsed))) v =
        some (applyWrites (List.replicate (timepointsOf parsed) none) (writesFor parsed v)) := by
    intro v hv
    rw [lookupKey_fillTable, lookupKey_initTable (varsOf parsed) (timepointsOf parsed) v hv]
    rfl
  refine ⟨?_, ?_, ?_, ?_, ?_⟩
  · intro v hv
    rw [hrow v hv]
    simp [applyWrites_length]
  · intro e he
    have hv : e.1 ∈ varsOf parsed := by
      unfold varsOf
      exact List.mem_dedup.mpr (List.mem_map.mpr ⟨e, he, rfl⟩)
    rw [hrow e.1 hv]
    have hmem : (e.2.1, e.2.2) ∈ writesFor parsed e.1 :=
      (mem_writesFor parsed e.1 e.2.1 e.2.2).mpr he
    have hlt : e.2.1 < (List.replicate (timepointsOf parsed) (none : Option Int)).length := by
      have := mem_lt_timepointsOf parsed e he
      simpa using this
    simpa using
      applyWrites_getElem?_mem _ _ e.2.1 e.2.2 hmem (writesFor_fst_nodup parsed e.1 hnd) hlt
  · intro v hv t hlt hnone
    rw [hrow v hv]
    have hnw : ∀ x, (t, x) ∉ writesFor parsed v :=
      fun x hx => hnone x ((mem_writesFor parsed v t x).mp hx)
    have hb := applyWrites_getElem?_not_mem
      (List.replicate (timepointsOf parsed) none) (writesFor parsed v) t hnw
    simp only [Option.some_bind, hb]
    simp [List.getElem?_replicate, hlt]
  · intro e he
    exact mem_lt_timepointsOf parsed e he
  · intro hne
    exact timepointsOf_is_succ_max parsed (parseTrace_ne_nil trace parsed hp hne)

/-- C4 witness: the theorem applied to a concrete two-variable trace. -/
theorem C4_witness :
    (lookupKey exTable2 0).map (fun row => row.length) = some (timepointsOf exParsed2) ∧
    (lookupKey exTable2 0).bind (fun row => row[0]?) = some (some 1) :=
  ⟨(C4_dense_table exTrace2 exParsed2 exTable2 (by decide) (by decide) (by decide)).1
      0 (by decide),
   (C4_dense_table exTrace2 exParsed2 exTable2 (by decide) (by decide) (by decide)).2.1
      (0, 0, 1) (by decide)⟩


/-! Lemmas about the simulation dictionary loops. -/

lemma lookupKey_appendAll (res : ResultDict) (v x : Int) (w : Int) :
    lookupKey (appendAll res v x) w =
      if w = v then (lookupKey res w).map (fun row => row ++ [x])
      else lookupKey res w := by
  induction res with
  | nil =>
      simp only [appendAll, lookupKey]
      split <;> simp
  | cons kv rest ih =>
      obtain ⟨k, row⟩ := kv
      by_cases hk : k = v
      · subst hk
        by_cases hw : k = w
        · subst hw
          simp [appendAll, lookupKey]
        · simp [appendAll, lookupKey, hw, ih]
      · by_cases hw : k = w
        · subst hw
          simp [appendAll, lookupKey, hk]
        · simp [appendAll, lookupKey, hk, hw, ih]

lemma innerLoop_spec (v : Int) (trace : List SimState) (res res2 : ResultDict)
    (h : innerLoop v trace res = some res2) :
    ∃ xs, collectVals v trace = some xs ∧
      lookupKey res2 v = (lookupKey res v).map (fun row => row ++ xs) ∧
      (∀ w, w ≠ v → lookupKey res2 w = lookupKey res w) := by
  induction trace generalizing res with
  | nil =>
      cases h
      refine ⟨[], rfl, ?_, fun w _ => rfl⟩
      cases lookupKey res2 v <;> simp
  | cons point rest ih =>
      unfold innerLoop at h
      split at h
      · exact absurd h (by simp)
      · rename_i x hx
        split at h
        · exact absurd h (by simp)
        · rename_i resA hda
          rcases ih resA h with ⟨xs, hcv, hlv, hfr⟩
          have hresA : resA = appendAll res v x := by
            unfold dictAppend at hda
            by_cases hany : res.any (fun kv => kv.1 = v) = true
            · rw [if_pos hany] at hda
              cases hda
              rfl
            · rw [if_neg hany] at hda
              cases hda
          subst hresA
          refine ⟨x :: xs, ?_, ?_, ?_⟩
          · simp [collectVals, hx, hcv]
          · rw [hlv, lookupKey_appendAll, if_pos rfl]
            cases lookupKey res v <;> simp
          · intro w hw
            rw [hfr w hw, lookupKey_appendAll, if_neg hw]

lemma outerLoop_frame (trace : List SimState) (vl : List Int) (res res2 : ResultDict)
    (h : outerLoop trace vl res = some res2) (w : Int) (hw : w ∉ vl) :
    lookupKey res2 w = lookupKey res w := by
  induction vl generalizing res with
  | nil =>
      cases h
      rfl
  | cons v vl2 ih =>
      unfold outerLoop at h
      split at h
      · exact absurd h (by simp)
      · rename_i resA hi
        rcases innerLoop_spec v trace res resA hi with ⟨xs, _, _, hfr⟩
        rw [ih resA h (fun hmem => hw (List.mem_cons_of_mem v hmem)),
          hfr w (fun he => hw (he ▸ List.mem_cons_self v vl2))]

lemma outerLoop_spec (trace : List SimState) (vl : List Int) (res res2 : ResultDict)
    (hnd : vl.Nodup) (h : outerLoop trace vl res = some res2) (v : Int) (hv : v ∈ vl) :
    ∃ xs, collectVals v trace = some xs ∧
      lookupKey res2 v = (lookupKey res v).map (fun row => row ++ xs) := by
  induction vl generalizing res with
  | nil => cases hv
  | cons a vl2 ih =>
      unfold outerLoop at h
      split at h
      · exact absurd h (by simp)
      · rename_i resA hi
        rcases innerLoop_spec a trace res resA hi with ⟨xs, hcv, hla, hfr⟩
        rcases List.mem_cons.mp hv with h1 | h2
        · subst h1
          have hnin : v ∉ vl2 := (List.nodup_cons.mp hnd).1
          exact ⟨xs, hcv, by rw [outerLoop_frame trace vl2 resA res2 h v hnin, hla]⟩
        · have hne : v ≠ a := by
            intro hh
            subst hh
            exact (List.nodup_cons.mp hnd).1 h2
          rcases ih resA (List.nodup_cons.mp hnd).2 h h2 with ⟨ys, hcy, hly⟩
          exact ⟨ys, hcy, by rw [hly, hfr v hne]⟩

lemma simulate_many_head_length (evalF : String → SimState → Option Int) (qn : QN)
    (t0 : SimState) (steps : Nat) (tr : List SimState)
    (h : simulate_many evalF qn t0 steps = some tr) :
    tr.head? = some t0 ∧ tr.length = steps + 1 := by
  induction steps generalizing t0 tr with
  | zero =>
      cases h
      exact ⟨rfl, rfl⟩
  | succ n ih =>
      unfold simulate_many at h
      split at h
      · exact absurd h (by simp)
      · rename_i s1 hs
        split at h
        · exact absurd h (by simp)
        · rename_i rest hr
          cases h
          exact ⟨rfl, by simp [(ih s1 rest hr).2]⟩

lemma collectVals_cons (v : Int) (point : SimState) (rest : List SimState) (xs : List Int)
    (h : collectVals v (point :: rest) = some xs) :
    ∃ x tail, lookupKey point v = some x ∧ xs = x :: tail ∧ collectVals v rest = some tail := by
  unfold collectVals at h
  split at h
  · exact absurd h (by simp)
  · rename_i x hx
    rcases Option.map_eq_some'.mp h with ⟨tail, htl, hxs⟩
    exact ⟨x, tail, hx, hxs.symm, htl⟩

lemma collectVals_length (v : Int) (trace : List SimState) (xs : List Int)
    (h : collectVals v trace = some xs) : xs.length = trace.length := by
  induction trace generalizing xs with
  | nil =>
      cases h
      rfl
  | cons point rest ih =>
      rcases collectVals_cons v point rest xs h with ⟨x, tail, _, rfl, htail⟩
      simp [ih tail htail]

lemma lookupKey_map_self {α : Type} (l : List Int) (c : Int → α) (v : Int) (hv : v ∈ l) :
    lookupKey (l.map (fun w => (w, c w))) v = some (c v) := by
  induction l with
  | nil => cases hv
  | cons a rest ih =>
      by_cases ha : a = v
      · subst ha
        simp [lookupKey]
      · rcases List.mem_cons.mp hv with h1 | h2
        · exact absurd h1.symm ha
        · simpa [lookupKey, ha] using ih h2

/-! Claim C10: the default simulation starts at the all-zero state. -/

/-- C10: with initial_values None, simulate fills t0 with a zero for every
variable of the network, so a successful default run gives every network
variable a value sequence of length steps + 1 whose first entry is 0 — the
run is the trajectory from the all-zero state (the spec-modelled engine
starts its trace at the supplied initial state). -/
theorem C10_default_run_starts_at_zero (evalF : String → SimState → Option Int) (qn : QN)
    (steps : Nat) (res : ResultDict)
    (hnd : (qn.map (fun n => n.var)).Nodup)
    (h : simulate evalF qn steps none = some res) :
    ∀ v ∈ qn.map (fun n => n.var),
      (lookupKey res v).bind (fun seq => seq.head?) = some 0 ∧
      (lookupKey res v).map (fun seq => seq.length) = some (steps + 1) := by
  intro v hv
  unfold simulate at h
  dsimp only at h
  split at h
  · exact absurd h (by simp)
  · rename_i tr hsm
    split at h
    · exact absurd h (by simp)
    · rename_i first hfirst
      obtain ⟨hhead, hlen⟩ := simulate_many_head_length evalF qn _ steps tr hsm
      have hfirst0 : first = (qn.map (fun n => n.var)).map (fun w => (w, (0 : Int))) := by
        rw [hfirst] at hhead
        cases hhead
        rfl
      have hinit : lookupKey (first.map (fun kv => (kv.1, ([] : List Int)))) v = some [] := by
        rw [hfirst0, List.map_map]
        exact lookupKey_map_self (qn.map (fun n => n.var)) (fun _ => []) v hv
      rcases outerLoop_spec tr (qn.map (fun n => n.var)) _ res hnd h v hv with ⟨xs, hcv, hlv⟩
      rw [hinit] at hlv
      cases tr with
      | nil => simp at hhead
      | cons point rest =>
          have hpoint : point = (qn.map (fun n => n.var)).map (fun w => (w, (0 : Int))) := by
            simpa using hhead
          rcases collectVals_cons v point rest xs hcv with ⟨x, tail, hx, hxs, _⟩
          have hx0 : x = 0 := by
            rw [hpoint, lookupKey_map_self (qn.map (fun n => n.var)) (fun _ => (0 : Int)) v hv]
              at hx
            cases hx
            rfl
          constructor
          · rw [hlv]
            simp [hxs, hx0]
          · rw [hlv]
            have hxl := collectVals_length v (point :: rest) xs hcv
            simp only [List.length_cons] at hxl
            simp only [List.length_cons] at hlen
            simp [hxl, hlen]

/-- C10 witness: the theorem applied to the concrete one-node network. -/
theorem C10_witness :
    (lookupKey exSimRes 0).bind (fun seq => seq.head?) = some 0 ∧
    (lookupKey exSimRes 0).map (fun seq => seq.length) = some 2 :=
  C10_default_run_starts_at_zero constEval exQN 1 exSimRes (by decide) (by decide) 0 (by decide)

end PyBMA
